import Mathlib

/-!
Verification development for the HealthSamurai meilisearch-docs-scraper.

The TypeScript sources are shallowly embedded below:
* string helpers and the `generateObjectId` hash (src/scraper, `part_001`),
* the data model (`src/types.ts`),
* the URL router `matchStartUrl` and `getFetchHeaders` (`src/config.ts`),
* the per-page hierarchy extractor `scrapePage` (`part_001`),
* the concurrent fetch scheduler `scrapePages` (`part_001`),
* the reindex coordinator `reindex` (`src/meilisearch.ts`).

The HTML parser / CSS selector engine is an external collaborator: a page is
modelled as the document-ordered list of elements it would hand back, each
element carrying the set of selector strings the engine says it matches, its
(raw) text content, its `id` attribute, its tag name, its `td`/`th` cell texts
and its `content` attribute.  The JS regular-expression engine is likewise
abstracted as a compile oracle mapping a pattern to `none` (compilation throws)
or `some test` (the compiled tester).
-/

/-! ## String helpers -/

/-- Whitespace as matched by the scraper's `replace(/\s+/g, " ")` calls
(ASCII subset; the pages at stake are ASCII-whitespace only). -/
def isWs (c : Char) : Bool :=
  c = ' ' || c = '\t' || c = '\n' || c = '\r'

/-- Collapse every run of whitespace to a single space
(`prevWs` records whether the previous character was part of a run). -/
def collapseWsGo (prevWs : Bool) : List Char → List Char
  | [] => []
  | c :: cs =>
    if isWs c then
      if prevWs then collapseWsGo true cs else ' ' :: collapseWsGo true cs
    else c :: collapseWsGo false cs

/-- Drop leading and trailing spaces (after collapsing, the only whitespace
left is the space character), i.e. `.trim()`. -/
def trimSpaces (l : List Char) : List Char :=
  ((l.dropWhile (· = ' ')).reverse.dropWhile (· = ' ')).reverse

/-- Model of `s.replace(/\s+/g, " ").trim()` — the normalization applied to every text
extracted by the scraper. -/
def normWs (s : String) : String :=
  String.mk (trimSpaces (collapseWsGo false s.data))

/-- Model of `url.split("#")[0]` — the prefix of the URL before the first `#`. -/
def takeUntilHash (s : String) : String :=
  String.mk (s.data.takeWhile (· ≠ '#'))

/-- Does `pat` occur at the head of `l`? -/
def listHasPre : List Char → List Char → Bool
  | [], _ => true
  | _ :: _, [] => false
  | a :: as, b :: bs => a = b && listHasPre as bs

/-- Does `pat` occur contiguously anywhere inside the second list? -/
def listInfixOf (pat : List Char) : List Char → Bool
  | [] => pat.isEmpty
  | b :: bs => listHasPre pat (b :: bs) || listInfixOf pat bs

/-- JS `haystack.includes(needle)` — substring containment. -/
def strContains (haystack needle : String) : Bool :=
  listInfixOf needle.data haystack.data

/-- Model of `[...new Set([...a, ...b])]` keeps the first occurrence of each element,
in insertion order; `seen` accumulates the elements already kept. -/
def dedupFirst (seen : List String) : List String → List String
  | [] => []
  | a :: as => if a ∈ seen then dedupFirst seen as else a :: dedupFirst (a :: seen) as

/-! ## The `generateObjectId` hash (`part_001`, lines 11–21) -/

/-- JS `ToInt32`: wrap an integer into `[-2^31, 2^31)`. -/
def js32 (n : ℤ) : ℤ := (n + 2 ^ 31) % 2 ^ 32 - 2 ^ 31

/-- One step of the loop `hash = ((hash << 5) - hash) + char; hash = hash & hash`.
`hash << 5` is a 32-bit shift, the subtraction/addition are exact, and
`hash & hash` coerces back to 32 bits. -/
def hashStep (h : ℤ) (c : ℕ) : ℤ := js32 (js32 (h * 32) - h + c)

/-- The accumulated hash of a string (`charCodeAt` = the character's code,
which agrees with the UTF-16 unit for the ASCII inputs at stake). -/
def jsHash (s : String) : ℤ := s.data.foldl (fun h c => hashStep h c.toNat) 0

/-- The character for one base-36 digit (`0`–`9`, then `a`–`z`). -/
def digitChar36 (d : ℕ) : Char :=
  if d < 10 then Char.ofNat (48 + d) else Char.ofNat (87 + d)

/-- The base-`b` digits of `n`, least significant first (`fuel ≥ n` suffices
for the division chain to bottom out). -/
def toDigitsRev (b : ℕ) : ℕ → ℕ → List ℕ
  | 0, _ => []
  | _ + 1, 0 => []
  | fuel + 1, n + 1 => (n + 1) % b :: toDigitsRev b fuel ((n + 1) / b)

/-- Rebuild the number from its little-endian digits. -/
def ofDigitsRev (b : ℕ) : List ℕ → ℕ
  | [] => 0
  | d :: ds => d + b * ofDigitsRev b ds

/-- Model of `n.toString(36)` for a natural number. -/
def natToBase36 (n : ℕ) : String :=
  if n = 0 then "0" else String.mk (((toDigitsRev 36 n n).reverse).map digitChar36)

/-- JS `String(n)` for a natural number (decimal). -/
def decRepr (n : ℕ) : String :=
  if n = 0 then "0" else String.mk (((toDigitsRev 10 n n).reverse).map digitChar36)

/-- Model of `generateObjectId(url, anchor?)`: hash `url + "#" + anchor` (anchor part
omitted when absent), take the absolute value and print it in base 36. -/
def generateObjectId (url : String) (anchor : Option String) : String :=
  let base := url ++ (match anchor with | some a => "#" ++ a | none => "")
  natToBase36 (jsHash base).natAbs

example : normWs "  a \n b  " = "a b" := by decide
example : takeUntilHash "http://x/p#sec" = "http://x/p" := by decide
example : strContains "https://x/docs/p" "docs" = true := by decide
example : jsHash "Aa" = 2112 := by decide
example : jsHash "BB" = 2112 := by decide

/-! ## Data model (`src/types.ts`) -/

/-- Model of `SelectorConfig`: a selector string with options.  A missing
`default_value` is `none`; a missing `global` is falsy, i.e. `false`. -/
structure SelectorConfig where
  selector : String
  global : Bool := false
  default_value : Option String := none
deriving DecidableEq, Repr

/-- Model of `Selector = string | SelectorConfig`. -/
inductive Selector where
  | str (s : String)
  | cfg (c : SelectorConfig)
deriving DecidableEq, Repr

/-- Model of `Selectors`: the seven level selectors plus the text selector, with
optional `tags` and `breadcrumb` selectors. -/
structure Selectors where
  lvl0 : Selector
  lvl1 : Selector
  lvl2 : Selector
  lvl3 : Selector
  lvl4 : Selector
  lvl5 : Selector
  lvl6 : Selector
  text : Selector
  tags : Option Selector := none
  breadcrumb : Option Selector := none
deriving DecidableEq, Repr

/-- Model of `StartUrlConfig`: a pattern, a rank and a selectors key. -/
structure StartUrlConfig where
  url : String
  page_rank : ℕ
  selectors_key : String
deriving DecidableEq, Repr

/-- Model of `StartUrl = string | StartUrlConfig`. -/
inductive StartUrl where
  | str (s : String)
  | cfg (c : StartUrlConfig)
deriving DecidableEq, Repr

/-- The configuration fields consumed by the extractor (`Config` in
`src/types.ts`, restricted to what `scrapePage` reads). -/
structure Config where
  selectors_exclude : Option (List String) := none
  tags : Option (List String) := none
deriving DecidableEq, Repr

/-- Model of `DocumentType`. -/
inductive DocumentType where
  | content | lvl0 | lvl1 | lvl2 | lvl3 | lvl4 | lvl5 | lvl6
deriving DecidableEq, Repr

/-- Model of `SearchDocument` — the unit of indexing. -/
structure SearchDocument where
  objectID : String
  url : String
  url_without_anchor : String
  anchor : Option String := none
  content : String
  type : DocumentType
  hierarchy_lvl0 : String
  hierarchy_lvl1 : String
  hierarchy_lvl2 : String
  hierarchy_lvl3 : String
  hierarchy_lvl4 : String
  hierarchy_lvl5 : String
  hierarchy_lvl6 : String
  product : String := ""
  breadcrumb : String := ""
  tags : List String := []
  item_priority : ℕ := 0
deriving DecidableEq, Repr

/-- Model of `minWordSizeForTypos` inside `typoTolerance`. -/
structure MinWordSize where
  oneTypo : Option ℕ := none
  twoTypos : Option ℕ := none
deriving DecidableEq, Repr

/-- Model of `typoTolerance` override. -/
structure TypoTolerance where
  enabled : Option Bool := none
  minWordSizeForTypos : Option MinWordSize := none
deriving DecidableEq, Repr

/-- Model of `MeilisearchSettings`: each field optional (absent = not pushed). -/
structure MeilisearchSettings where
  filterableAttributes : Option (List String) := none
  displayedAttributes : Option (List String) := none
  searchableAttributes : Option (List String) := none
  rankingRules : Option (List String) := none
  sortableAttributes : Option (List String) := none
  distinctAttribute : Option String := none
  nonSeparatorTokens : Option (List String) := none
  typoTolerance : Option TypoTolerance := none
deriving DecidableEq, Repr

/-! ## `src/config.ts` -/

/-- Model of `getSelectorString`. -/
def getSelectorString : Selector → String
  | .str s => s
  | .cfg c => c.selector

/-- Model of `getSelectorConfig`. -/
def getSelectorConfig : Selector → SelectorConfig
  | .str s => { selector := s }
  | .cfg c => c

/-- The fixed identifying user-agent string. -/
def USER_AGENT : String :=
  "MeilisearchDocsScraper/1.0 (https://github.com/HealthSamurai/meilisearch-docs-scraper)"

/-- The base64 alphabet. -/
def base64Char (d : ℕ) : Char :=
  if d < 26 then Char.ofNat (65 + d)
  else if d < 52 then Char.ofNat (97 + (d - 26))
  else if d < 62 then Char.ofNat (48 + (d - 52))
  else if d = 62 then '+' else '/'

/-- Standard base64 of a byte list, with `=` padding. -/
def base64Encode : List ℕ → String
  | [] => ""
  | [b1] =>
    String.mk [base64Char (b1 / 4), base64Char (b1 % 4 * 16), '=', '=']
  | [b1, b2] =>
    String.mk [base64Char (b1 / 4), base64Char (b1 % 4 * 16 + b2 / 16),
               base64Char (b2 % 16 * 4), '=']
  | b1 :: b2 :: b3 :: rest =>
    String.mk [base64Char (b1 / 4), base64Char (b1 % 4 * 16 + b2 / 16),
               base64Char (b2 % 16 * 4 + b3 / 64), base64Char (b3 % 64)] ++
    base64Encode rest

/-- The bytes of a string (code points; agrees with UTF-8 for the ASCII
credentials at stake). -/
def strBytes (s : String) : List ℕ := s.data.map Char.toNat

/-- Model of `getFetchHeaders()`: the `User-Agent` header always, plus an
`Authorization: Basic` header when `BASIC_AUTH_USERNAME` and
`BASIC_AUTH_PASSWORD` are both set and non-empty (JS truthiness). -/
def getFetchHeaders (user pass : Option String) : List (String × String) :=
  let headers := [("User-Agent", USER_AGENT)]
  match user, pass with
  | some u, some p =>
    if u ≠ "" && p ≠ "" then
      headers ++ [("Authorization", "Basic " ++ base64Encode (strBytes (u ++ ":" ++ p)))]
    else headers
  | _, _ => headers

/-- The headers `scrapePage` (`part_001`, lines 119–121) actually passes to
`fetch`: the literal object `{ "User-Agent": USER_AGENT }`, with no
environment lookup at all. -/
def scrapePageFetchHeaders : List (String × String) :=
  [("User-Agent", USER_AGENT)]

/-- The verdict of the JS `RegExp` engine on one pattern: `none` when
`new RegExp(pattern)` throws, otherwise `some test` with the compiled
tester. -/
def RegexOracle : Type := String → Option (String → Bool)

/-- The result of `matchStartUrl`: a rank, and a selectors key when a rule
matched. -/
structure MatchResult where
  page_rank : ℕ
  selectors_key : Option String := none
deriving DecidableEq, Repr

/-- Model of `matchStartUrl(url, startUrls)` (`src/config.ts`, lines 198–216):
bare-string entries are skipped (`continue`); for an object entry the pattern
is compiled as a regular expression and tested against the URL — if
compilation throws, the entry degrades to substring containment
(`url.includes(config.url)`); the first matching entry wins; no match yields
rank 1 and no selectors key. -/
def matchStartUrl (oracle : RegexOracle) (url : String) : List StartUrl → MatchResult
  | [] => { page_rank := 1 }
  | .str _ :: rest => matchStartUrl oracle url rest
  | .cfg c :: rest =>
    match oracle c.url with
    | some test =>
      if test url then { page_rank := c.page_rank, selectors_key := some c.selectors_key }
      else matchStartUrl oracle url rest
    | none =>
      if strContains url c.url then
        { page_rank := c.page_rank, selectors_key := some c.selectors_key }
      else matchStartUrl oracle url rest

/-! ## DOM model

The parser/selector engine is external: a page is the document-ordered list
of elements, each recording the engine's verdicts. -/

/-- One DOM element as seen through the CSS engine. -/
structure Elem where
  /-- The selector strings this element matches (the engine's verdicts). -/
  sels : List String
  /-- Raw `textContent`. -/
  text : String := ""
  /-- The `id` attribute (`""` when absent, as in the DOM API). -/
  id : String := ""
  /-- Model of `tagName` (upper-cased, as in the DOM API). -/
  tag : String := ""
  /-- Raw texts of the `td`/`th` cells, for `TR` elements. -/
  cells : List String := []
  /-- The `content` attribute (`""` when absent; `getAttribute(..) || ""`). -/
  attrContent : String := ""
deriving DecidableEq, Repr

/-- Model of `element.matches(sel)`. -/
def elemMatches (e : Elem) (sel : String) : Bool := sel ∈ e.sels

/-- Model of `queryAll(document, selector)`: all matches in document order; an empty
selector string throws in the engine and the `catch` yields `[]`. -/
def queryAllM (page : List Elem) (sel : String) : List Elem :=
  if sel = "" then [] else page.filter (fun e => elemMatches e sel)

/-- Model of `queryOne(document, selector)`: the first match, if any. -/
def queryOneM (page : List Elem) (sel : String) : Option Elem :=
  (queryAllM page sel).head?

/-- Model of `getTextContent(element)` (`part_001`, lines 27–38): `tr` elements with
cells get their cell texts normalized, non-empty ones space-joined; everything
else gets its whitespace-collapsed text content. -/
def getTextContent (e : Elem) : String :=
  if e.tag = "TR" && !e.cells.isEmpty then
    String.intercalate " " (((e.cells.map normWs).filter (fun t => t ≠ "")))
  else normWs e.text

/-- Model of `extractLevelValue` (`part_001`, lines 65–75): first match of the
selector, normalized; falling back to `default_value`, then `""`. -/
def extractLevelValue (page : List Elem) (sel : Selector) : String :=
  let config := getSelectorConfig sel
  let text := match queryOneM page config.selector with
    | some e => normWs e.text
    | none => ""
  if text ≠ "" then text else config.default_value.getD ""

/-- Model of `extractMetaProduct` (`part_001`, lines 95–98). -/
def extractMetaProduct (page : List Elem) : String :=
  match queryOneM page "meta[name=\"docsearch:product\"]" with
  | some m => m.attrContent
  | none => ""

/-- Model of `extractMetaTags` (`part_001`, lines 103–108). -/
def extractMetaTags (page : List Elem) : List String :=
  ((queryAllM page "meta[name=\"docsearch:tag\"]").map (fun m => m.attrContent)).filter
    (fun t => t.length > 0)

/-- Removing every element matched by a configured exclusion selector
(`part_001`, lines 161–169; sequential `el.remove()` = dropping every element
matched by any exclusion selector). -/
def filterExcluded (config : Config) (page : List Elem) : List Elem :=
  match config.selectors_exclude with
  | none => page
  | some excls => page.filter (fun e => !(excls.any (fun sel => elemMatches e sel)))

/-! ## Hierarchy state -/

/-- The per-page mutable hierarchy state: seven strings. -/
structure Hierarchy where
  lvl0 : String := ""
  lvl1 : String := ""
  lvl2 : String := ""
  lvl3 : String := ""
  lvl4 : String := ""
  lvl5 : String := ""
  lvl6 : String := ""
deriving DecidableEq, Repr

/-- Model of `hierarchy[lvl k]` as a function of the level number. -/
def Hierarchy.get (h : Hierarchy) : ℕ → String
  | 0 => h.lvl0
  | 1 => h.lvl1
  | 2 => h.lvl2
  | 3 => h.lvl3
  | 4 => h.lvl4
  | 5 => h.lvl5
  | 6 => h.lvl6
  | _ => ""

/-- Model of `hierarchy[lvl k] = v`. -/
def Hierarchy.set (h : Hierarchy) (k : ℕ) (v : String) : Hierarchy :=
  match k with
  | 0 => { h with lvl0 := v }
  | 1 => { h with lvl1 := v }
  | 2 => { h with lvl2 := v }
  | 3 => { h with lvl3 := v }
  | 4 => { h with lvl4 := v }
  | 5 => { h with lvl5 := v }
  | 6 => { h with lvl6 := v }
  | _ => h

/-- Model of `for (i = level + 1; i <= 6; i++) hierarchy[lvl i] = ""` — clear every
level strictly deeper than `level`. -/
def Hierarchy.clearBelow (h : Hierarchy) (level : ℕ) : Hierarchy :=
  { lvl0 := h.lvl0
    lvl1 := if level < 1 then "" else h.lvl1
    lvl2 := if level < 2 then "" else h.lvl2
    lvl3 := if level < 3 then "" else h.lvl3
    lvl4 := if level < 4 then "" else h.lvl4
    lvl5 := if level < 5 then "" else h.lvl5
    lvl6 := if level < 6 then "" else h.lvl6 }

/-- The walk's update on meeting a heading at `level`: set the level's text,
then clear every deeper level (`part_001`, lines 252–261). -/
def applyHeading (h : Hierarchy) (level : ℕ) (text : String) : Hierarchy :=
  (h.set level text).clearBelow level

/-- Model of `computeLevelWeight` (`part_001`, lines 81–90): the deepest non-empty
level, scanned from 6 down to 0, maps to `(7 - i) * 10 + 20`; all empty
maps to 0. -/
def computeLevelWeight (h : Hierarchy) : ℕ :=
  if h.lvl6 ≠ "" then 30
  else if h.lvl5 ≠ "" then 40
  else if h.lvl4 ≠ "" then 50
  else if h.lvl3 ≠ "" then 60
  else if h.lvl2 ≠ "" then 70
  else if h.lvl1 ≠ "" then 80
  else if h.lvl0 ≠ "" then 90
  else 0

/-- The deepest non-empty level of a hierarchy state, if any (the quantity
`computeLevelWeight` scans for). -/
def deepestNonEmpty (h : Hierarchy) : Option ℕ :=
  if h.lvl6 ≠ "" then some 6
  else if h.lvl5 ≠ "" then some 5
  else if h.lvl4 ≠ "" then some 4
  else if h.lvl3 ≠ "" then some 3
  else if h.lvl2 ≠ "" then some 2
  else if h.lvl1 ≠ "" then some 1
  else if h.lvl0 ≠ "" then some 0
  else none

/-- The hierarchy snapshot a document carries. -/
def docHierarchy (d : SearchDocument) : Hierarchy :=
  { lvl0 := d.hierarchy_lvl0, lvl1 := d.hierarchy_lvl1, lvl2 := d.hierarchy_lvl2
    lvl3 := d.hierarchy_lvl3, lvl4 := d.hierarchy_lvl4, lvl5 := d.hierarchy_lvl5
    lvl6 := d.hierarchy_lvl6 }

/-! ## The element walk (`part_001`, lines 248–300) -/

/-- The per-page constants threaded through the walk. -/
structure WalkCfg where
  headingSels : List (ℕ × String)
  textSel : String
  url : String
  urlNoHash : String
  pageRank : ℕ
  product : String
  breadcrumb : String
  tags : List String
  total : ℕ

/-- Model of `element.id || undefined`. -/
def elemAnchor (e : Elem) : Option String :=
  if e.id = "" then none else some e.id

/-- The content document pushed for a text element: `cIdx` is the current
`contentIndex`, `nDocs` the current `documents.length`. -/
def mkContentDoc (cfg : WalkCfg) (h : Hierarchy) (anc : Option String)
    (content : String) (cIdx nDocs : ℕ) : SearchDocument :=
  { objectID := generateObjectId cfg.url anc ++ "-" ++ decRepr nDocs
    url := match anc with
      | some a => cfg.urlNoHash ++ "#" ++ a
      | none => cfg.urlNoHash
    url_without_anchor := cfg.urlNoHash
    anchor := anc
    content := content
    type := .content
    hierarchy_lvl0 := h.lvl0
    hierarchy_lvl1 := h.lvl1
    hierarchy_lvl2 := h.lvl2
    hierarchy_lvl3 := h.lvl3
    hierarchy_lvl4 := h.lvl4
    hierarchy_lvl5 := h.lvl5
    hierarchy_lvl6 := h.lvl6
    product := cfg.product
    breadcrumb := cfg.breadcrumb
    tags := cfg.tags
    item_priority := cfg.pageRank * 1000000000 + computeLevelWeight h * 1000 + (cfg.total - cIdx) }

/-- The `for (const element of allElements)` loop: headings (first heading
selector that matches, in level order) update the hierarchy and the active
anchor and emit nothing; non-heading elements matching the text selector emit
a content document when their extracted text is longer than 10 characters. -/
def walk (cfg : WalkCfg) : List Elem → Hierarchy → Option String → ℕ → ℕ → List SearchDocument
  | [], _, _, _, _ => []
  | e :: es, h, anc, cIdx, nDocs =>
    match cfg.headingSels.find? (fun p => elemMatches e p.2) with
    | some (level, _) =>
      walk cfg es (applyHeading h level (normWs e.text)) (elemAnchor e) cIdx nDocs
    | none =>
      if elemMatches e cfg.textSel then
        let content := getTextContent e
        if 10 < content.length then
          mkContentDoc cfg h anc content cIdx nDocs ::
            walk cfg es h anc (cIdx + 1) (nDocs + 1)
        else walk cfg es h anc cIdx nDocs
      else walk cfg es h anc cIdx nDocs

/-! ## `scrapePage` (`part_001`, lines 113–303)

The network fetch is handled by the scheduler model below; `scrapePageDocs`
is the extraction applied to the parsed page. -/

/-- The heading selector list `[(1, lvl1), …, (6, lvl6)]` with empty
selectors dropped (`.filter(h => h.selector)`). -/
def headingSelectorList (selectors : Selectors) : List (ℕ × String) :=
  ([(1, getSelectorString selectors.lvl1), (2, getSelectorString selectors.lvl2),
    (3, getSelectorString selectors.lvl3), (4, getSelectorString selectors.lvl4),
    (5, getSelectorString selectors.lvl5), (6, getSelectorString selectors.lvl6)]).filter
    (fun p => p.2 ≠ "")

/-- The one combined query for headings and text (`allSelectors` comma-join;
empty selector strings dropped): an element is a candidate iff it matches one
of the joined selectors. -/
def candidateElems (selectors : Selectors) (filtered : List Elem) : List Elem :=
  let sels := ((headingSelectorList selectors).map (fun p => p.2) ++
    [getSelectorString selectors.text]).filter (fun s => s ≠ "")
  filtered.filter (fun e => sels.any (fun s => elemMatches e s))

/-- Everything `scrapePage` does after the page-level metadata extraction,
operating on the exclusion-filtered document. -/
def scrapeCore (selectors : Selectors) (url urlNoHash product breadcrumb : String)
    (pageTags : List String) (pageRank : ℕ) (filtered : List Elem) : List SearchDocument :=
  let lvl0Config := getSelectorConfig selectors.lvl0
  let lvl1Config := getSelectorConfig selectors.lvl1
  let globalLvl0 := if lvl0Config.global then extractLevelValue filtered selectors.lvl0 else ""
  let globalLvl1 := if lvl1Config.global then extractLevelValue filtered selectors.lvl1 else ""
  let textSelector := getSelectorString selectors.text
  let textElements := queryAllM filtered textSelector
  if textElements.isEmpty then
    let lvl1 := if globalLvl1 ≠ "" then globalLvl1 else extractLevelValue filtered selectors.lvl1
    if lvl1 ≠ "" then
      [{ objectID := generateObjectId url none
         url := url
         url_without_anchor := urlNoHash
         anchor := none
         content := ""
         type := .lvl1
         hierarchy_lvl0 := if globalLvl0 ≠ "" then globalLvl0 else lvl0Config.default_value.getD ""
         hierarchy_lvl1 := lvl1
         hierarchy_lvl2 := "", hierarchy_lvl3 := "", hierarchy_lvl4 := ""
         hierarchy_lvl5 := "", hierarchy_lvl6 := ""
         product := product
         breadcrumb := breadcrumb
         tags := pageTags
         item_priority := pageRank * 1000000000 + 90 * 1000 }]
    else []
  else
    let h0 : Hierarchy :=
      { lvl0 := if globalLvl0 ≠ "" then globalLvl0 else lvl0Config.default_value.getD ""
        lvl1 := globalLvl1 }
    let allElems := candidateElems selectors filtered
    walk { headingSels := headingSelectorList selectors
           textSel := textSelector
           url := url, urlNoHash := urlNoHash, pageRank := pageRank
           product := product, breadcrumb := breadcrumb, tags := pageTags
           total := allElems.length }
      allElems h0 none 0 0

/-- The page-level metadata `scrapePage` extracts from the *unfiltered*
document (lines 133–159): product, breadcrumb, and tags (meta tags ∪
CSS-selector tags, with the configuration's global tags as fallback). -/
def pageMeta (config : Config) (selectors : Selectors) (page : List Elem) :
    String × String × List String :=
  let product := extractMetaProduct page
  let breadcrumb := match selectors.breadcrumb with
    | some bsel =>
      match queryOneM page (getSelectorString bsel) with
      | some e => normWs e.text
      | none => ""
    | none => ""
  let metaTags := extractMetaTags page
  let pageTags := match selectors.tags with
    | some tsel =>
      dedupFirst []
        (metaTags ++ (((queryAllM page (getSelectorString tsel)).map
          (fun e => normWs e.text)).filter (fun t => t.length > 0)))
    | none => metaTags
  let pageTags := if pageTags.isEmpty then
      match config.tags with
      | some ts => ts
      | none => pageTags
    else pageTags
  (product, breadcrumb, pageTags)

/-- Model of `scrapePage` applied to a parsed page: metadata from the raw document,
then exclusion-removal, then global levels and the element walk. -/
def scrapePageDocs (config : Config) (selectors : Selectors) (url : String)
    (pageRank : ℕ) (page : List Elem) : List SearchDocument :=
  let urlNoHash := takeUntilHash url
  let meta := pageMeta config selectors page
  scrapeCore selectors url urlNoHash meta.1 meta.2.1 meta.2.2 pageRank
    (filterExcluded config page)

/-! ## The concurrent fetch scheduler (`part_001`, lines 308–345) -/

/-- The outcome of one URL's fetch-and-extract, as decided by the network and
the parser (the external collaborators): a successful document list, a
non-success HTTP status, or a thrown error (network failure or parser
exception). -/
inductive PageOutcome where
  | ok (docs : List SearchDocument)
  | httpError (status : ℕ)
  | exn
deriving DecidableEq, Repr

/-- Is this outcome a per-URL failure? -/
def PageOutcome.isFailure : PageOutcome → Bool
  | .ok _ => false
  | .httpError _ => true
  | .exn => true

/-- What one URL contributes to the corpus: its documents on success; `[]` on
a non-success status (`scrapePage` returns `[]`, lines 122–125) and `[]` on a
thrown error (the `catch` in `scrapePages`, lines 331–335). -/
def perUrlDocs (f : String → PageOutcome) (u : String) : List SearchDocument :=
  match f u with
  | .ok docs => docs
  | .httpError _ => []
  | .exn => []

/-- The chunking loop with explicit fuel (each chunk consumes at least one
element, so `l.length` steps suffice). -/
def chunksOfGo (k : ℕ) : ℕ → List α → List (List α)
  | _, [] => []
  | 0, _ :: _ => []
  | fuel + 1, a :: as =>
    match k with
    | 0 => []
    | k + 1 => ((a :: as).take (k + 1)) :: chunksOfGo (k + 1) fuel ((a :: as).drop (k + 1))

/-- Model of `urls.slice(i, i + k)` chunks: the fixed-size waves of the scheduler and
the fixed-size batches of the uploader.  (`k = 0` would never terminate in
the JS loop; both call sites use positive constants.) -/
def chunksOf (k : ℕ) (l : List α) : List (List α) := chunksOfGo k l.length l

/-- Model of `scrapePages(urls, config, concurrency)`: process the URLs in waves of
`concurrency`, appending every wave's per-URL results in order. -/
def scrapePagesModel (f : String → PageOutcome) (concurrency : ℕ)
    (urls : List String) : List SearchDocument :=
  (chunksOf concurrency urls).foldl
    (fun acc batch => acc ++ (batch.map (perUrlDocs f)).flatten) []

/-- Model of `Promise.all`'s result assembly: each completion event `(i, docs)` fills
slot `i`; events arrive in completion order. -/
def fillSlots (slots : List (Option (List SearchDocument))) :
    List (ℕ × List SearchDocument) → List (Option (List SearchDocument))
  | [] => slots
  | (i, d) :: evs => fillSlots (slots.set i (some d)) evs

/-- One wave under an explicit completion order: start with empty slots, fill
them as the fetches complete, read the slots back in input order. -/
def timedWave (batch : List String) (events : List (ℕ × List SearchDocument)) :
    List (List SearchDocument) :=
  (fillSlots (List.replicate batch.length none) events).map (fun o => o.getD [])

/-- The whole scheduler under explicit per-wave completion orders. -/
def timedRun : List (List String) → List (List (ℕ × List SearchDocument)) →
    List SearchDocument
  | [], _ => []
  | b :: bs, [] => (timedWave b []).flatten ++ timedRun bs []
  | b :: bs, evs :: rest => (timedWave b evs).flatten ++ timedRun bs rest

/-- Model of `scrapePages` with fetch-completion timing made explicit: waves of
`concurrency`, the wave's completion order given by `schedule`. -/
def timedScrapePages (concurrency : ℕ) (urls : List String)
    (schedule : List (List (ℕ × List SearchDocument))) : List SearchDocument :=
  timedRun (chunksOf concurrency urls) schedule

/-- A schedule is valid for `f` when every wave's events are exactly that
wave's indexed results, in some completion order. -/
def ValidSchedule (f : String → PageOutcome) (concurrency : ℕ)
    (urls : List String) (schedule : List (List (ℕ × List SearchDocument))) : Prop :=
  List.Forall₂ (fun batch evs => List.Perm evs (batch.map (perUrlDocs f)).enum)
    (chunksOf concurrency urls) schedule

/-! ## The reindex coordinator (`src/meilisearch.ts`) -/

/-- Model of `const BATCH_SIZE = 1000` (`src/meilisearch.ts`, line 4). -/
def BATCH_SIZE : ℕ := 1000

/-- One engine-side index: its documents (in insertion order) and settings. -/
structure EngIndex where
  docs : List SearchDocument := []
  settings : MeilisearchSettings := {}
deriving Repr

/-- The engine: a partial map from index uid to index. -/
def EngineState : Type := String → Option EngIndex

/-- The document list of an index, if the index exists. -/
def docsAt (s : EngineState) (uid : String) : Option (List SearchDocument) :=
  (s uid).map (fun i => i.docs)

/-- Model of `deleteIndex` (errors swallowed: deleting a missing index is a no-op). -/
def deleteIdxOp (s : EngineState) (uid : String) : EngineState :=
  fun n => if n = uid then none else s n

/-- Model of `createIndex(uid, { primaryKey: "objectID" })`: a fresh empty index. -/
def createIdxOp (s : EngineState) (uid : String) : EngineState :=
  fun n => if n = uid then some {} else s n

/-- Merge the pushed settings fields (only present fields are sent in
`updatePayload`; the engine keeps the rest). -/
def mergeSettings (old new : MeilisearchSettings) : MeilisearchSettings :=
  { filterableAttributes := new.filterableAttributes.orElse fun _ => old.filterableAttributes
    displayedAttributes := new.displayedAttributes.orElse fun _ => old.displayedAttributes
    searchableAttributes := new.searchableAttributes.orElse fun _ => old.searchableAttributes
    rankingRules := new.rankingRules.orElse fun _ => old.rankingRules
    sortableAttributes := new.sortableAttributes.orElse fun _ => old.sortableAttributes
    distinctAttribute := new.distinctAttribute.orElse fun _ => old.distinctAttribute
    nonSeparatorTokens := new.nonSeparatorTokens.orElse fun _ => old.nonSeparatorTokens
    typoTolerance := new.typoTolerance.orElse fun _ => old.typoTolerance }

/-- Model of `index.updateSettings(updatePayload)` on `uid` (no-op on a missing
index's documents; the run only calls it on the fresh shadow). -/
def updateSettingsOp (s : EngineState) (uid : String)
    (stg : MeilisearchSettings) : EngineState :=
  fun n => if n = uid then (s uid).map (fun i => { i with settings := mergeSettings i.settings stg })
           else s n

/-- Model of `index.addDocuments(batch)`: append to the index's document list. -/
def addDocsOp (s : EngineState) (uid : String) (batch : List SearchDocument) : EngineState :=
  fun n => if n = uid then (s uid).map (fun i => { i with docs := i.docs ++ batch })
           else s n

/-- Model of `swapIndexes([{ indexes: [a, b] }])`: exchange the two uids atomically. -/
def swapOp (s : EngineState) (a b : String) : EngineState :=
  fun n => if n = a then s b else if n = b then s a else s n

/-- The shadow index name `` `${indexName}_temp` ``. -/
def tempName (indexName : String) : String := indexName ++ "_temp"

/-- The engine state after the pre-upload steps: purge stale shadow, create
the shadow, apply settings to it. -/
def afterSettings (s0 : EngineState) (indexName : String)
    (settings : MeilisearchSettings) : EngineState :=
  updateSettingsOp (createIdxOp (deleteIdxOp s0 (tempName indexName)) (tempName indexName))
    (tempName indexName) settings

/-- The engine states observed after each successive batch upload. -/
def uploadStates (s : EngineState) (uid : String) :
    List (List SearchDocument) → List EngineState
  | [] => []
  | b :: bs => addDocsOp s uid b :: uploadStates (addDocsOp s uid b) uid bs

/-- The engine state after all batch uploads. -/
def afterUploads (s : EngineState) (uid : String)
    (batches : List (List SearchDocument)) : EngineState :=
  batches.foldl (fun st b => addDocsOp st uid b) s

/-- The engine state after the `ENSURE_LIVE_EXISTS` step: create the live
index empty only when it does not exist. -/
def afterEnsureLive (s : EngineState) (indexName : String) : EngineState :=
  if (s indexName).isSome then s else createIdxOp s indexName

/-- Every engine state `reindex` passes through strictly before the swap, in
order: after the stale-shadow purge, after the shadow create, after the
settings push, after each document batch, and after the ensure-live check.
A failure at any pre-swap step leaves the engine in one of these states (a
failing call itself only ever targets the shadow). -/
def reindexPreSwapStates (s0 : EngineState) (indexName : String)
    (documents : List SearchDocument) (settings : MeilisearchSettings) :
    List EngineState :=
  let temp := tempName indexName
  let s1 := deleteIdxOp s0 temp
  let s2 := createIdxOp s1 temp
  let s3 := updateSettingsOp s2 temp settings
  let batches := chunksOf BATCH_SIZE documents
  let s4 := afterUploads s3 temp batches
  s1 :: s2 :: s3 :: uploadStates s3 temp batches ++ [afterEnsureLive s4 indexName]

/-- The engine state immediately after the swap. -/
def reindexSwappedState (s0 : EngineState) (indexName : String)
    (documents : List SearchDocument) (settings : MeilisearchSettings) : EngineState :=
  let temp := tempName indexName
  let s4 := afterUploads (afterSettings s0 indexName settings) temp
    (chunksOf BATCH_SIZE documents)
  swapOp (afterEnsureLive s4 indexName) indexName temp

/-- The final engine state of a successful run (old shadow purged). -/
def reindexFinalState (s0 : EngineState) (indexName : String)
    (documents : List SearchDocument) (settings : MeilisearchSettings) : EngineState :=
  deleteIdxOp (reindexSwappedState s0 indexName documents settings) (tempName indexName)

/-! ## Helper lemmas: digits and object ids -/

theorem toDigitsRev_lt (b : ℕ) (hb : 0 < b) :
    ∀ fuel n, ∀ d ∈ toDigitsRev b fuel n, d < b := by
  intro fuel
  induction fuel with
  | zero => intro n d hd; simp [toDigitsRev] at hd
  | succ fuel ih =>
    intro n d hd
    cases n with
    | zero => simp [toDigitsRev] at hd
    | succ m =>
      simp only [toDigitsRev, List.mem_cons] at hd
      rcases hd with h | h
      · exact h ▸ Nat.mod_lt _ hb
      · exact ih _ d h

theorem ofDigitsRev_toDigitsRev (b : ℕ) (hb : 2 ≤ b) :
    ∀ fuel n, n ≤ fuel → ofDigitsRev b (toDigitsRev b fuel n) = n := by
  intro fuel
  induction fuel with
  | zero => intro n hn; interval_cases n; simp [toDigitsRev, ofDigitsRev]
  | succ fuel ih =>
    intro n hn
    cases n with
    | zero => simp [toDigitsRev, ofDigitsRev]
    | succ m =>
      have hdiv : (m + 1) / b ≤ fuel := by
        have h1 : (m + 1) / b < m + 1 := Nat.div_lt_self (Nat.succ_pos m) (by omega)
        omega
      simp only [toDigitsRev, ofDigitsRev, ih _ hdiv]
      exact Nat.mod_add_div (m + 1) b

theorem toDigitsRev_inj (b : ℕ) (hb : 2 ≤ b) (m n : ℕ)
    (h : toDigitsRev b m m = toDigitsRev b n n) : m = n := by
  have hm := ofDigitsRev_toDigitsRev b hb m m le_rfl
  have hn := ofDigitsRev_toDigitsRev b hb n n le_rfl
  rw [← hm, ← hn, h]

theorem toNat_digitChar36 (d : ℕ) (hd : d < 36) :
    (digitChar36 d).toNat = if d < 10 then 48 + d else 87 + d := by
  interval_cases d <;> decide

theorem digitChar36_inj (a b : ℕ) (ha : a < 36) (hb : b < 36)
    (h : digitChar36 a = digitChar36 b) : a = b := by
  have := congrArg Char.toNat h
  rw [toNat_digitChar36 a ha, toNat_digitChar36 b hb] at this
  split_ifs at this <;> omega

theorem digitChar36_ne_dash (d : ℕ) (hd : d < 36) : digitChar36 d ≠ '-' := by
  interval_cases d <;> decide

theorem map_digitChar36_inj :
    ∀ (l1 l2 : List ℕ), (∀ x ∈ l1, x < 36) → (∀ x ∈ l2, x < 36) →
      l1.map digitChar36 = l2.map digitChar36 → l1 = l2 := by
  intro l1
  induction l1 with
  | nil => intro l2 _ _ h; cases l2 <;> simp_all
  | cons a as ih =>
    intro l2 h1 h2 h
    cases l2 with
    | nil => simp at h
    | cons b bs =>
      simp only [List.map_cons, List.cons.injEq] at h
      have ha : a = b := digitChar36_inj a b (h1 a (by simp)) (h2 b (by simp)) h.1
      have : as = bs := ih bs (fun x hx => h1 x (by simp [hx])) (fun x hx => h2 x (by simp [hx])) h.2
      simp [ha, this]

theorem decRepr_eq_zero_str (n : ℕ) (h : decRepr n = "0") : n = 0 := by
  by_contra hn
  unfold decRepr at h
  rw [if_neg hn] at h
  have data : ((toDigitsRev 10 n n).reverse).map digitChar36 = ['0'] :=
    congrArg String.data h
  have h36 : ∀ x ∈ (toDigitsRev 10 n n).reverse, x < 36 := by
    intro x hx
    rw [List.mem_reverse] at hx
    have := toDigitsRev_lt 10 (by norm_num) n n x hx
    omega
  have hzero : (toDigitsRev 10 n n).reverse = [0] := by
    have h0 : ([0] : List ℕ).map digitChar36 = ['0'] := by decide
    exact map_digitChar36_inj _ [0] h36 (by norm_num) (data.trans h0.symm)
  have hdig : toDigitsRev 10 n n = [0] := by
    have := congrArg List.reverse hzero
    simpa using this
  have := ofDigitsRev_toDigitsRev 10 (by norm_num) n n le_rfl
  rw [hdig] at this
  simp [ofDigitsRev] at this
  omega

theorem decRepr_inj (m n : ℕ) (h : decRepr m = decRepr n) : m = n := by
  by_cases hm : m = 0 <;> by_cases hn : n = 0
  · omega
  · exfalso
    have : decRepr n = "0" := by rw [← h, hm]; rfl
    exact hn (decRepr_eq_zero_str n this)
  · exfalso
    have : decRepr m = "0" := by rw [h, hn]; rfl
    exact hm (decRepr_eq_zero_str m this)
  · unfold decRepr at h
    rw [if_neg hm, if_neg hn] at h
    have data := congrArg String.data h
    have hmem : ∀ (l : List ℕ), (∀ x ∈ l, x < 10) → ∀ x ∈ l.reverse, x < 36 := by
      intro l hl x hx
      rw [List.mem_reverse] at hx
      have := hl x hx; omega
    have heq : (toDigitsRev 10 m m).reverse = (toDigitsRev 10 n n).reverse :=
      map_digitChar36_inj _ _ (hmem _ (toDigitsRev_lt 10 (by norm_num) m m))
        (hmem _ (toDigitsRev_lt 10 (by norm_num) n n)) data
    have : toDigitsRev 10 m m = toDigitsRev 10 n n := by
      have := congrArg List.reverse heq; simpa using this
    exact toDigitsRev_inj 10 (by norm_num) m n this

theorem natToBase36_noDash (n : ℕ) : '-' ∉ (natToBase36 n).data := by
  unfold natToBase36
  split
  · decide
  · intro hmem
    have : ∃ d ∈ (toDigitsRev 36 n n).reverse, digitChar36 d = '-' := by
      simpa using hmem
    obtain ⟨d, hd, hdash⟩ := this
    rw [List.mem_reverse] at hd
    exact digitChar36_ne_dash d (toDigitsRev_lt 36 (by norm_num) n n d hd) hdash

theorem decRepr_noDash (n : ℕ) : '-' ∉ (decRepr n).data := by
  unfold decRepr
  split
  · decide
  · intro hmem
    have : ∃ d ∈ (toDigitsRev 10 n n).reverse, digitChar36 d = '-' := by
      simpa using hmem
    obtain ⟨d, hd, hdash⟩ := this
    rw [List.mem_reverse] at hd
    have := toDigitsRev_lt 10 (by norm_num) n n d hd
    exact digitChar36_ne_dash d (by omega) hdash

theorem append_dash_inj :
    ∀ (p1 p2 s1 s2 : List Char), '-' ∉ p1 → '-' ∉ p2 →
      p1 ++ '-' :: s1 = p2 ++ '-' :: s2 → p1 = p2 ∧ s1 = s2 := by
  intro p1
  induction p1 with
  | nil =>
    intro p2 s1 s2 _ h2 h
    cases p2 with
    | nil => simpa using h
    | cons b bs =>
      exfalso
      simp only [List.nil_append, List.cons_append, List.cons.injEq] at h
      exact h2 (h.1 ▸ List.mem_cons_self b bs)
  | cons a as ih =>
    intro p2 s1 s2 h1 h2 h
    cases p2 with
    | nil =>
      exfalso
      simp only [List.cons_append, List.nil_append, List.cons.injEq] at h
      exact h1 (h.1 ▸ List.mem_cons_self a as)
    | cons b bs =>
      simp only [List.cons_append, List.cons.injEq] at h
      have hab := h.1
      have := ih bs s1 s2 (fun hm => h1 (List.mem_cons_of_mem a hm))
        (fun hm => h2 (List.mem_cons_of_mem b hm)) h.2
      exact ⟨by simp [hab, this.1], this.2⟩

theorem string_data_append (a b : String) : (a ++ b).data = a.data ++ b.data := rfl

theorem string_data_injective (a b : String) (h : a.data = b.data) : a = b := by
  cases a; cases b; exact congrArg String.mk h

/-- Two object ids built from the same page walk with different emission
indices are distinct: the base-36 hash part contains no dash, so the string
splits uniquely at the dash separating it from the decimal suffix. -/
theorem objectId_suffix_ne (u : String) (a1 a2 : Option String) (n1 n2 : ℕ)
    (hne : n1 ≠ n2) :
    generateObjectId u a1 ++ "-" ++ decRepr n1 ≠ generateObjectId u a2 ++ "-" ++ decRepr n2 := by
  intro h
  have hdata := congrArg String.data h
  rw [string_data_append, string_data_append, string_data_append, string_data_append] at hdata
  have hdash : ("-" : String).data = ['-'] := rfl
  rw [hdash] at hdata
  simp only [List.append_assoc, List.singleton_append] at hdata
  have h1 : '-' ∉ (generateObjectId u a1).data := natToBase36_noDash _
  have h2 : '-' ∉ (generateObjectId u a2).data := natToBase36_noDash _
  have := append_dash_inj _ _ _ _ h1 h2 hdata
  exact hne (decRepr_inj n1 n2 (string_data_injective _ _ this.2))

/-! ## Helper lemmas: the element walk -/

theorem walk_cons_heading (cfg : WalkCfg) (e : Elem) (es : List Elem)
    (h : Hierarchy) (anc : Option String) (c n lvl : ℕ) (sel : String)
    (hfind : cfg.headingSels.find? (fun p => elemMatches e p.2) = some (lvl, sel)) :
    walk cfg (e :: es) h anc c n =
      walk cfg es (applyHeading h lvl (normWs e.text)) (elemAnchor e) c n := by
  simp [walk, hfind]

theorem walk_cons_emit (cfg : WalkCfg) (e : Elem) (es : List Elem)
    (h : Hierarchy) (anc : Option String) (c n : ℕ)
    (hfind : cfg.headingSels.find? (fun p => elemMatches e p.2) = none)
    (htext : elemMatches e cfg.textSel = true)
    (hlen : 10 < (getTextContent e).length) :
    walk cfg (e :: es) h anc c n =
      mkContentDoc cfg h anc (getTextContent e) c n :: walk cfg es h anc (c + 1) (n + 1) := by
  simp [walk, hfind, htext, hlen]

theorem walk_cons_skip (cfg : WalkCfg) (e : Elem) (es : List Elem)
    (h : Hierarchy) (anc : Option String) (c n : ℕ)
    (hfind : cfg.headingSels.find? (fun p => elemMatches e p.2) = none)
    (hskip : elemMatches e cfg.textSel = false ∨ ¬ 10 < (getTextContent e).length) :
    walk cfg (e :: es) h anc c n = walk cfg es h anc c n := by
  rcases hskip with h1 | h1 <;> simp [walk, hfind, h1]

theorem walk_length (cfg : WalkCfg) :
    ∀ (es : List Elem) (h : Hierarchy) (anc : Option String) (cIdx nDocs : ℕ),
      (walk cfg es h anc cIdx nDocs).length ≤ es.length := by
  intro es
  induction es with
  | nil => intro h anc c n; simp [walk]
  | cons e es ih =>
    intro h anc c n
    cases hfind : cfg.headingSels.find? (fun p => elemMatches e p.2) with
    | some p =>
      obtain ⟨lvl, sel⟩ := p
      rw [walk_cons_heading cfg e es h anc c n lvl sel hfind]
      exact Nat.le_succ_of_le (ih _ _ _ _)
    | none =>
      by_cases htext : elemMatches e cfg.textSel
      · by_cases hlen : 10 < (getTextContent e).length
        · rw [walk_cons_emit cfg e es h anc c n hfind htext hlen]
          simpa using Nat.succ_le_succ (ih _ _ _ _)
        · rw [walk_cons_skip cfg e es h anc c n hfind (Or.inr hlen)]
          exact Nat.le_succ_of_le (ih _ _ _ _)
      · rw [walk_cons_skip cfg e es h anc c n hfind (Or.inl (by simpa using htext))]
        exact Nat.le_succ_of_le (ih _ _ _ _)

theorem walk_objectID (cfg : WalkCfg) :
    ∀ (es : List Elem) (h : Hierarchy) (anc : Option String) (cIdx nDocs k : ℕ)
      (d : SearchDocument), (walk cfg es h anc cIdx nDocs)[k]? = some d →
      ∃ anc2, d.objectID = generateObjectId cfg.url anc2 ++ "-" ++ decRepr (nDocs + k) := by
  intro es
  induction es with
  | nil => intro h anc c n k d hd; simp [walk] at hd
  | cons e es ih =>
    intro h anc c n k d hd
    cases hfind : cfg.headingSels.find? (fun p => elemMatches e p.2) with
    | some p =>
      obtain ⟨lvl, sel⟩ := p
      rw [walk_cons_heading cfg e es h anc c n lvl sel hfind] at hd
      exact ih _ _ _ _ _ _ hd
    | none =>
      by_cases htext : elemMatches e cfg.textSel
      · by_cases hlen : 10 < (getTextContent e).length
        · rw [walk_cons_emit cfg e es h anc c n hfind htext hlen] at hd
          cases k with
          | zero =>
            simp only [List.getElem?_cons_zero, Option.some.injEq] at hd
            exact ⟨anc, by rw [← hd]; rfl⟩
          | succ k =>
            simp only [List.getElem?_cons_succ] at hd
            obtain ⟨a2, ha2⟩ := ih h anc (c + 1) (n + 1) k d hd
            exact ⟨a2, by rw [ha2]; congr 2; omega⟩
        · rw [walk_cons_skip cfg e es h anc c n hfind (Or.inr hlen)] at hd
          exact ih _ _ _ _ _ _ hd
      · rw [walk_cons_skip cfg e es h anc c n hfind (Or.inl (by simpa using htext))] at hd
        exact ih _ _ _ _ _ _ hd

theorem walk_priority (cfg : WalkCfg) :
    ∀ (es : List Elem) (h : Hierarchy) (anc : Option String) (cIdx nDocs k : ℕ)
      (d : SearchDocument), (walk cfg es h anc cIdx nDocs)[k]? = some d →
      d.item_priority = cfg.pageRank * 1000000000 +
        computeLevelWeight (docHierarchy d) * 1000 + (cfg.total - (cIdx + k)) ∧
      d.type = DocumentType.content := by
  intro es
  induction es with
  | nil => intro h anc c n k d hd; simp [walk] at hd
  | cons e es ih =>
    intro h anc c n k d hd
    cases hfind : cfg.headingSels.find? (fun p => elemMatches e p.2) with
    | some p =>
      obtain ⟨lvl, sel⟩ := p
      rw [walk_cons_heading cfg e es h anc c n lvl sel hfind] at hd
      exact ih _ _ _ _ _ _ hd
    | none =>
      by_cases htext : elemMatches e cfg.textSel
      · by_cases hlen : 10 < (getTextContent e).length
        · rw [walk_cons_emit cfg e es h anc c n hfind htext hlen] at hd
          cases k with
          | zero =>
            simp only [List.getElem?_cons_zero, Option.some.injEq] at hd
            subst hd
            have hdh : docHierarchy (mkContentDoc cfg h anc (getTextContent e) c n) = h := rfl
            rw [hdh]
            exact ⟨rfl, rfl⟩
          | succ k =>
            simp only [List.getElem?_cons_succ] at hd
            have := ih h anc (c + 1) (n + 1) k d hd
            refine ⟨?_, this.2⟩
            rw [this.1]
            congr 2
            omega
        · rw [walk_cons_skip cfg e es h anc c n hfind (Or.inr hlen)] at hd
          exact ih _ _ _ _ _ _ hd
      · rw [walk_cons_skip cfg e es h anc c n hfind (Or.inl (by simpa using htext))] at hd
        exact ih _ _ _ _ _ _ hd

/-- Erase the page-level metadata fields of a document. -/
def stripMeta (d : SearchDocument) : SearchDocument :=
  { d with product := "", breadcrumb := "", tags := [] }

theorem walk_stripMeta (cfg1 cfg2 : WalkCfg)
    (hh : cfg1.headingSels = cfg2.headingSels) (ht : cfg1.textSel = cfg2.textSel)
    (hu : cfg1.url = cfg2.url) (hn : cfg1.urlNoHash = cfg2.urlNoHash)
    (hr : cfg1.pageRank = cfg2.pageRank) (htot : cfg1.total = cfg2.total) :
    ∀ (es : List Elem) (h : Hierarchy) (anc : Option String) (c n : ℕ),
      (walk cfg1 es h anc c n).map stripMeta = (walk cfg2 es h anc c n).map stripMeta := by
  intro es
  induction es with
  | nil => intro h anc c n; simp [walk]
  | cons e es ih =>
    intro h anc c n
    cases hfind : cfg1.headingSels.find? (fun p => elemMatches e p.2) with
    | some p =>
      obtain ⟨lvl, sel⟩ := p
      rw [walk_cons_heading cfg1 e es h anc c n lvl sel hfind,
          walk_cons_heading cfg2 e es h anc c n lvl sel (hh ▸ hfind)]
      exact ih _ _ _ _
    | none =>
      have hfind2 : cfg2.headingSels.find? (fun p => elemMatches e p.2) = none := hh ▸ hfind
      by_cases htext : elemMatches e cfg1.textSel
      · by_cases hlen : 10 < (getTextContent e).length
        · rw [walk_cons_emit cfg1 e es h anc c n hfind htext hlen,
              walk_cons_emit cfg2 e es h anc c n hfind2 (ht ▸ htext) hlen]
          simp only [List.map_cons]
          rw [ih]
          congr 1
          simp [mkContentDoc, stripMeta, hu, hn, hr, htot]
        · rw [walk_cons_skip cfg1 e es h anc c n hfind (Or.inr hlen),
              walk_cons_skip cfg2 e es h anc c n hfind2 (Or.inr hlen)]
          exact ih _ _ _ _
      · rw [walk_cons_skip cfg1 e es h anc c n hfind (Or.inl (by simpa using htext)),
            walk_cons_skip cfg2 e es h anc c n hfind2
              (Or.inl (by rw [← ht]; simpa using htext))]
        exact ih _ _ _ _

theorem scrapeCore_stripMeta (selectors : Selectors) (url unh : String)
    (p1 b1 p2 b2 : String) (t1 t2 : List String) (r : ℕ) (F : List Elem) :
    (scrapeCore selectors url unh p1 b1 t1 r F).map stripMeta =
    (scrapeCore selectors url unh p2 b2 t2 r F).map stripMeta := by
  simp only [scrapeCore]
  split_ifs <;>
    first
      | rfl
      | simp [stripMeta]
      | (apply walk_stripMeta <;> rfl)

theorem filterExcluded_idem (config : Config) (page : List Elem) :
    filterExcluded config (filterExcluded config page) = filterExcluded config page := by
  unfold filterExcluded
  cases config.selectors_exclude with
  | none => rfl
  | some excls => simp

/-! ## Helper lemmas: chunking and the scheduler -/

theorem chunksOfGo_flatten {α : Type} (k : ℕ) (hk : 0 < k) :
    ∀ (fuel : ℕ) (l : List α), l.length ≤ fuel → (chunksOfGo k fuel l).flatten = l := by
  intro fuel
  induction fuel with
  | zero =>
    intro l hl
    have : l = [] := List.length_eq_zero.mp (by omega)
    subst this
    simp [chunksOfGo]
  | succ fuel ih =>
    intro l hl
    cases l with
    | nil => simp [chunksOfGo]
    | cons a as =>
      cases k with
      | zero => omega
      | succ k =>
        simp only [chunksOfGo, List.flatten_cons]
        rw [ih (((a :: as).drop (k + 1)))
          (by simp only [List.length_drop, List.length_cons] at hl ⊢; omega)]
        exact List.take_append_drop (k + 1) (a :: as)

theorem chunksOf_flatten {α : Type} (k : ℕ) (hk : 0 < k) :
    ∀ (l : List α), (chunksOf k l).flatten = l := by
  intro l
  exact chunksOfGo_flatten k hk l.length l le_rfl

theorem chunksOf_single {α : Type} (k : ℕ) (l : List α) (hne : l ≠ [])
    (hlen : l.length ≤ k) : chunksOf k l = [l] := by
  cases l with
  | nil => exact absurd rfl hne
  | cons a as =>
    cases k with
    | zero => simp at hlen
    | succ k =>
      unfold chunksOf
      simp only [List.length_cons, chunksOfGo]
      rw [List.take_of_length_le hlen, List.drop_eq_nil_of_le hlen]
      simp [chunksOfGo]

theorem foldl_append_flatten (g : List String → List SearchDocument) :
    ∀ (bs : List (List String)) (init : List SearchDocument),
      bs.foldl (fun acc batch => acc ++ g batch) init = init ++ (bs.map g).flatten := by
  intro bs
  induction bs with
  | nil => intro init; simp
  | cons b bs ih => intro init; simp [ih, List.append_assoc]

theorem flatten_map_flatten (g : String → List SearchDocument) :
    ∀ (bs : List (List String)),
      (bs.map (fun batch => (batch.map g).flatten)).flatten = (bs.flatten.map g).flatten := by
  intro bs
  induction bs with
  | nil => simp
  | cons b bs ih => simp [ih]

theorem scrapePagesModel_eq (f : String → PageOutcome) (c : ℕ) (hc : 0 < c)
    (urls : List String) :
    scrapePagesModel f c urls = (urls.map (perUrlDocs f)).flatten := by
  unfold scrapePagesModel
  rw [foldl_append_flatten (fun batch => (batch.map (perUrlDocs f)).flatten)]
  simp only [List.nil_append]
  rw [flatten_map_flatten (perUrlDocs f) (chunksOf c urls)]
  rw [chunksOf_flatten c hc urls]

theorem fillSlots_perm :
    ∀ (evs1 evs2 : List (ℕ × List SearchDocument)),
      List.Perm evs1 evs2 → (evs1.map Prod.fst).Nodup →
      ∀ slots, fillSlots slots evs1 = fillSlots slots evs2 := by
  intro evs1 evs2 hperm
  induction hperm with
  | nil => intro _ _; rfl
  | cons x l ih =>
    intro hnd slots
    obtain ⟨i, d⟩ := x
    simp only [fillSlots]
    exact ih (by simpa using (List.nodup_cons.mp (by simpa using hnd)).2) _
  | swap x y l =>
    intro hnd slots
    obtain ⟨i, d⟩ := x
    obtain ⟨j, e⟩ := y
    simp only [fillSlots]
    have hij : j ≠ i := by
      simp only [List.map_cons, List.nodup_cons, List.mem_cons, List.mem_map] at hnd
      intro h
      exact hnd.1 (Or.inl h)
    rw [List.set_comm _ _ _ hij]
  | trans h12 h23 ih12 ih23 =>
    intro hnd slots
    rw [ih12 hnd slots]
    exact ih23 (((h12.map Prod.fst).nodup_iff).mp hnd) slots

theorem set_append_len {α : Type} :
    ∀ (pre : List α) (l : List α) (a : α),
      (pre ++ l).set pre.length a = pre ++ l.set 0 a := by
  intro pre
  induction pre with
  | nil => intro l a; rfl
  | cons x xs ih => intro l a; simp [List.set, ih]

theorem fillSlots_enumFrom :
    ∀ (rs : List (List SearchDocument)) (pre : List (Option (List SearchDocument))),
      fillSlots (pre ++ List.replicate rs.length none) (List.enumFrom pre.length rs) =
        pre ++ rs.map some := by
  intro rs
  induction rs with
  | nil => intro pre; simp [fillSlots, List.enumFrom]
  | cons r rs ih =>
    intro pre
    simp only [List.enumFrom, List.length_cons, List.replicate, fillSlots]
    rw [set_append_len pre (none :: List.replicate rs.length none) (some r)]
    have : (pre ++ some r :: List.replicate rs.length none) =
        (pre ++ [some r]) ++ List.replicate rs.length none := by simp
    rw [List.set_cons_zero, this]
    have hlen : pre.length + 1 = (pre ++ [some r]).length := by simp
    rw [hlen, ih (pre ++ [some r])]
    simp

theorem timedWave_eq (batch : List String) (f : String → PageOutcome)
    (evs : List (ℕ × List SearchDocument))
    (hperm : List.Perm evs (batch.map (perUrlDocs f)).enum) :
    timedWave batch evs = batch.map (perUrlDocs f) := by
  unfold timedWave
  have hnd : (evs.map Prod.fst).Nodup := by
    have := (hperm.map Prod.fst).nodup_iff
    rw [this, List.enum_map_fst]
    exact List.nodup_range _
  rw [fillSlots_perm evs (batch.map (perUrlDocs f)).enum hperm hnd]
  have hlen : batch.length = (batch.map (perUrlDocs f)).length := by simp
  rw [hlen]
  have := fillSlots_enumFrom (batch.map (perUrlDocs f)) []
  simp only [List.nil_append, List.length_nil] at this
  rw [show List.enum (batch.map (perUrlDocs f)) = List.enumFrom 0 (batch.map (perUrlDocs f)) from rfl]
  rw [this]
  simp

/-! ## Helper lemmas: the reindex coordinator -/

theorem tempName_ne (n : String) : tempName n ≠ n := by
  intro h
  have := congrArg String.length h
  rw [tempName, String.length_append] at this
  have h5 : ("_temp" : String).length = 5 := rfl
  omega

theorem deleteIdxOp_other (s : EngineState) (t n : String) (h : n ≠ t) :
    deleteIdxOp s t n = s n := by simp [deleteIdxOp, h]

theorem createIdxOp_other (s : EngineState) (t n : String) (h : n ≠ t) :
    createIdxOp s t n = s n := by simp [createIdxOp, h]

theorem updateSettingsOp_other (s : EngineState) (t n : String)
    (stg : MeilisearchSettings) (h : n ≠ t) : updateSettingsOp s t stg n = s n := by
  simp [updateSettingsOp, h]

theorem addDocsOp_other (s : EngineState) (t n : String)
    (b : List SearchDocument) (h : n ≠ t) : addDocsOp s t b n = s n := by
  simp [addDocsOp, h]

theorem afterUploads_other (t n : String) (h : n ≠ t) :
    ∀ (batches : List (List SearchDocument)) (s : EngineState),
      afterUploads s t batches n = s n := by
  intro batches
  induction batches with
  | nil => intro s; rfl
  | cons b bs ih =>
    intro s
    simp only [afterUploads, List.foldl_cons] at ih ⊢
    rw [ih (addDocsOp s t b)]
    exact addDocsOp_other s t n b h

theorem uploadStates_other (t n : String) (h : n ≠ t) :
    ∀ (batches : List (List SearchDocument)) (s : EngineState),
      ∀ st ∈ uploadStates s t batches, st n = s n := by
  intro batches
  induction batches with
  | nil => intro s st hst; simp [uploadStates] at hst
  | cons b bs ih =>
    intro s st hst
    simp only [uploadStates, List.mem_cons] at hst
    rcases hst with rfl | hst
    · exact addDocsOp_other s t n b h
    · rw [ih (addDocsOp s t b) st hst]
      exact addDocsOp_other s t n b h

theorem afterUploads_docs (t : String) :
    ∀ (batches : List (List SearchDocument)) (s : EngineState) (i : EngIndex),
      s t = some i →
      afterUploads s t batches t = some { i with docs := i.docs ++ batches.flatten } := by
  intro batches
  induction batches with
  | nil => intro s i hi; simp [afterUploads, hi]
  | cons b bs ih =>
    intro s i hi
    simp only [afterUploads, List.foldl_cons] at ih ⊢
    have hstep : addDocsOp s t b t = some { i with docs := i.docs ++ b } := by
      simp [addDocsOp, hi]
    rw [ih (addDocsOp s t b) _ hstep]
    simp [List.append_assoc]

/-! ## Helper lemmas: level weights and priorities -/

/-- The position component of a content document's `item_priority`. -/
def docPosPart (d : SearchDocument) (r : ℕ) : ℕ :=
  d.item_priority - (r * 1000000000 + computeLevelWeight (docHierarchy d) * 1000)

theorem computeLevelWeight_cases (h : Hierarchy) :
    computeLevelWeight h = 0 ∨ computeLevelWeight h = 30 ∨ computeLevelWeight h = 40 ∨
    computeLevelWeight h = 50 ∨ computeLevelWeight h = 60 ∨ computeLevelWeight h = 70 ∨
    computeLevelWeight h = 80 ∨ computeLevelWeight h = 90 := by
  unfold computeLevelWeight
  split_ifs <;> simp

theorem deepest_weight (h : Hierarchy) (i : ℕ) (hd : deepestNonEmpty h = some i) :
    computeLevelWeight h = 90 - 10 * i ∧ i ≤ 6 := by
  unfold deepestNonEmpty at hd
  unfold computeLevelWeight
  split_ifs at hd <;> simp_all <;> omega

theorem walk_member_priority (cfg : WalkCfg) (es : List Elem) (h0 : Hierarchy)
    (d : SearchDocument) (r total : ℕ) (hr : cfg.pageRank = r) (htotal : cfg.total = total)
    (htot : es.length ≤ total) (hd : d ∈ walk cfg es h0 none 0 0) :
    d.item_priority = r * 1000000000 +
      computeLevelWeight (docHierarchy d) * 1000 + docPosPart d r ∧
    0 < docPosPart d r ∧ docPosPart d r ≤ total := by
  subst hr
  subst htotal
  obtain ⟨k, hk⟩ := List.getElem?_of_mem hd
  have hprio := walk_priority _ _ _ _ _ _ _ _ hk
  have hklt : k < (walk cfg es h0 none 0 0).length := (List.getElem?_eq_some.mp hk).1
  have hle := walk_length cfg es h0 none 0 0
  have hktot : k < cfg.total := lt_of_lt_of_le hklt (le_trans hle htot)
  have heq := hprio.1
  simp only [Nat.zero_add] at heq
  have hpos : docPosPart d cfg.pageRank = cfg.total - k := by
    unfold docPosPart
    rw [heq]
    omega
  refine ⟨?_, ?_, ?_⟩
  · rw [heq, hpos]
  · omega
  · omega

theorem scrapeCore_content_priority (selectors : Selectors) (url unh prod bc : String)
    (tags : List String) (r : ℕ) (F : List Elem) (d : SearchDocument)
    (hd : d ∈ scrapeCore selectors url unh prod bc tags r F)
    (ht : d.type = DocumentType.content) :
    d.item_priority = r * 1000000000 + computeLevelWeight (docHierarchy d) * 1000 +
      docPosPart d r ∧
    0 < docPosPart d r ∧ docPosPart d r ≤ (candidateElems selectors F).length := by
  simp only [scrapeCore] at hd
  by_cases hempty : (queryAllM F (getSelectorString selectors.text)).isEmpty = true
  · simp only [hempty, if_true] at hd
    split_ifs at hd
    all_goals try exact absurd hd (List.not_mem_nil d)
    all_goals rw [List.mem_singleton] at hd
    all_goals subst hd
    all_goals simp at ht
  · rw [if_neg hempty] at hd
    exact walk_member_priority _ _ _ _ _ _ rfl rfl le_rfl hd

/-! ## Claim C4 -/

/-- Claim C4: for every heading level k (1..6) encountered during the element
walk, setting the hierarchy state at level k to the heading's text clears
every stored level strictly below k (k+1..6) and leaves every level strictly
above k unchanged. -/
theorem claim_C4_heading_update (h : Hierarchy) (k : ℕ) (text : String)
    (hk1 : 1 ≤ k) (hk6 : k ≤ 6) :
    (applyHeading h k text).get k = text ∧
    (∀ i, k < i → i ≤ 6 → (applyHeading h k text).get i = "") ∧
    (∀ i, i < k → (applyHeading h k text).get i = h.get i) := by
  interval_cases k <;>
    refine ⟨rfl, fun i hi1 hi2 => ?_, fun i hi => ?_⟩ <;>
    interval_cases i <;> rfl

theorem claim_C4_witness :
    (applyHeading ⟨"a", "b", "c", "d", "e", "f", "g"⟩ 3 "X").get 3 = "X" ∧
    (∀ i, 3 < i → i ≤ 6 → (applyHeading ⟨"a", "b", "c", "d", "e", "f", "g"⟩ 3 "X").get i = "") ∧
    (∀ i, i < 3 → (applyHeading ⟨"a", "b", "c", "d", "e", "f", "g"⟩ 3 "X").get i =
      (⟨"a", "b", "c", "d", "e", "f", "g"⟩ : Hierarchy).get i) :=
  claim_C4_heading_update ⟨"a", "b", "c", "d", "e", "f", "g"⟩ 3 "X" (by decide) (by decide)

/-! ## Claim C5 -/

/-- A fixed example document, used as concrete input below. -/
def exDoc : SearchDocument :=
  { objectID := "x-0", url := "https://x/p", url_without_anchor := "https://x/p"
    content := "some content here", type := .content
    hierarchy_lvl0 := "", hierarchy_lvl1 := "T", hierarchy_lvl2 := ""
    hierarchy_lvl3 := "", hierarchy_lvl4 := "", hierarchy_lvl5 := ""
    hierarchy_lvl6 := "" }

/-- The batch partition `addDocuments` uploads (`src/meilisearch.ts`,
lines 82–96): consecutive `slice(i, i + BATCH_SIZE)` chunks. -/
def uploadBatches (documents : List SearchDocument) : List (List SearchDocument) :=
  chunksOf BATCH_SIZE documents

/-- Claim C5: the upload step is claimed to partition the corpus into batches
of 100 documents by default; the code's `BATCH_SIZE` is 1000, so a corpus of
150 documents is uploaded as a single batch of 150 instead of two batches
(100 + 50) — contradicting the repository README ("100 documents per batch"). -/
theorem claim_C5_batch_size :
    BATCH_SIZE = 1000 ∧ BATCH_SIZE ≠ 100 ∧
    uploadBatches (List.replicate 150 exDoc) = [List.replicate 150 exDoc] ∧
    (uploadBatches (List.replicate 150 exDoc)).length = 1 := by
  have hchunk : uploadBatches (List.replicate 150 exDoc) = [List.replicate 150 exDoc] := by
    apply chunksOf_single
    · simp
    · simp [BATCH_SIZE]
  exact ⟨rfl, by decide, hchunk, by rw [hchunk]; rfl⟩

/-! ## Claim C9 -/

/-- Claim C9: with basic-auth credentials configured, `getFetchHeaders`
builds an `Authorization: Basic` header — but the page fetch in `scrapePage`
passes only the fixed user-agent header and never consults the environment,
so no page fetch ever sends the Authorization header. -/
theorem claim_C9_page_fetch_headers :
    (getFetchHeaders (some "user") (some "pass")).map Prod.fst =
      ["User-Agent", "Authorization"] ∧
    scrapePageFetchHeaders.map Prod.fst = ["User-Agent"] ∧
    (∀ p ∈ scrapePageFetchHeaders, p.1 ≠ "Authorization") := by
  refine ⟨rfl, rfl, ?_⟩
  intro p hp
  simp only [scrapePageFetchHeaders, List.mem_singleton] at hp
  subst hp
  decide

/-! ## Claim C6 -/

/-- The test `matchStartUrl` applies to one object rule: regex when the
pattern compiles, substring containment when compilation throws. -/
def ruleMatches (oracle : RegexOracle) (url : String) (c : StartUrlConfig) : Bool :=
  match oracle c.url with
  | some test => test url
  | none => strContains url c.url

/-- The object-rule entries of a rule list, in declaration order. -/
def objRules : List StartUrl → List StartUrlConfig
  | [] => []
  | .str _ :: rest => objRules rest
  | .cfg c :: rest => c :: objRules rest

/-- Claim C6 (amended): the router skips bare-string rules entirely; it tests
the object rules in declaration order — regex test when the pattern compiles,
substring containment when compilation throws — stops at the first match, and
yields rank 1 with no selectors key when nothing matches. -/
theorem claim_C6_router (oracle : RegexOracle) (url : String) (rules : List StartUrl) :
    matchStartUrl oracle url rules =
      match (objRules rules).find? (ruleMatches oracle url) with
      | some c => { page_rank := c.page_rank, selectors_key := some c.selectors_key }
      | none => { page_rank := 1 } := by
  induction rules with
  | nil => rfl
  | cons r rest ih =>
    cases r with
    | str s => simpa [matchStartUrl, objRules] using ih
    | cfg c =>
      simp only [matchStartUrl, objRules, List.find?]
      cases horacle : oracle c.url with
      | some test =>
        by_cases htest : test url
        · simp [ruleMatches, horacle, htest]
        · simp only [ruleMatches, horacle]
          simp [htest, ih]
      | none =>
        by_cases hsub : strContains url c.url
        · simp [ruleMatches, horacle, hsub]
        · simp only [ruleMatches, horacle]
          simp [hsub, ih]

/-- A regex oracle under which every pattern compiles, and a compiled literal
pattern tests by substring containment (the behaviour of `new RegExp` on a
pattern with no metacharacters, such as `"docs"`). -/
def oracleLit : RegexOracle := fun pat => some (fun u => strContains u pat)

/-- Claim C6 is refuted as stated: the bare-string rule `"docs"` matches
`"https://x/docs/p"` by substring containment and comes first, so the claimed
first-match semantics yields rank 1 with no selectors key — but the router
skips string entries and returns the second rule's rank 5. -/
theorem claim_C6_counterexample :
    strContains "https://x/docs/p" "docs" = true ∧
    matchStartUrl oracleLit "https://x/docs/p"
      [.str "docs", .cfg { url := "docs", page_rank := 5, selectors_key := "k" }] =
      { page_rank := 5, selectors_key := some "k" } ∧
    matchStartUrl oracleLit "https://x/docs/p"
      [.str "docs", .cfg { url := "docs", page_rank := 5, selectors_key := "k" }] ≠
      { page_rank := 1 } := by
  refine ⟨by decide, by decide, by decide⟩

/-! ## Claim C7 -/

/-- Claim C7: every per-URL failure (network error, non-success HTTP status,
or parser exception) is caught at that URL's boundary and contributes exactly
zero documents; it never aborts the run or the wave, and the remaining URLs'
documents are still produced, in order. -/
theorem claim_C7_failure_isolation (f : String → PageOutcome) (c : ℕ)
    (pre post : List String) (u : String) (hc : 0 < c)
    (hfail : (f u).isFailure = true) :
    perUrlDocs f u = [] ∧
    scrapePagesModel f c (pre ++ u :: post) =
      (pre.map (perUrlDocs f)).flatten ++ (post.map (perUrlDocs f)).flatten ∧
    scrapePagesModel f c (pre ++ u :: post) = scrapePagesModel f c (pre ++ post) := by
  have hzero : perUrlDocs f u = [] := by
    unfold perUrlDocs
    cases hf : f u with
    | ok docs => rw [hf] at hfail; simp [PageOutcome.isFailure] at hfail
    | httpError s => rfl
    | exn => rfl
  refine ⟨hzero, ?_, ?_⟩
  · rw [scrapePagesModel_eq f c hc]
    simp [hzero]
  · rw [scrapePagesModel_eq f c hc, scrapePagesModel_eq f c hc]
    simp [hzero]

/-- A concrete outcome function: `"bad"` raises a parser exception, every
other URL yields the example document. -/
def exOutcome : String → PageOutcome :=
  fun u => if u = "bad" then .exn else .ok [exDoc]

theorem claim_C7_witness :
    perUrlDocs exOutcome "bad" = [] ∧
    scrapePagesModel exOutcome 2 (["a"] ++ "bad" :: ["b"]) =
      ((["a"] : List String).map (perUrlDocs exOutcome)).flatten ++
      ((["b"] : List String).map (perUrlDocs exOutcome)).flatten ∧
    scrapePagesModel exOutcome 2 (["a"] ++ "bad" :: ["b"]) =
      scrapePagesModel exOutcome 2 (["a"] ++ ["b"]) :=
  claim_C7_failure_isolation exOutcome 2 ["a"] ["b"] "bad" (by decide) (by decide)

/-! ## Claim C10 -/

/-- Claim C10: for every input URL list, the scheduler's output corpus is
fully deterministic and equals the concatenation of each URL's document list
in input order — `Promise.all` assembles each wave's results by input index,
so the corpus is independent of fetch completion timing. -/
theorem claim_C10_deterministic_order (f : String → PageOutcome) (c : ℕ)
    (urls : List String) (schedule : List (List (ℕ × List SearchDocument)))
    (hc : 0 < c) (hs : ValidSchedule f c urls schedule) :
    timedScrapePages c urls schedule = (urls.map (perUrlDocs f)).flatten ∧
    timedScrapePages c urls schedule = scrapePagesModel f c urls := by
  have main : timedScrapePages c urls schedule = (urls.map (perUrlDocs f)).flatten := by
    unfold timedScrapePages ValidSchedule at *
    have hrun : ∀ (chunks : List (List String)) (sch : List (List (ℕ × List SearchDocument))),
        List.Forall₂ (fun batch evs => List.Perm evs (batch.map (perUrlDocs f)).enum) chunks sch →
        timedRun chunks sch = (chunks.flatten.map (perUrlDocs f)).flatten := by
      intro chunks sch hfa
      induction hfa with
      | nil => rfl
      | cons hbe hrest ih =>
        rename_i batch evs chunks2 sch2
        simp only [timedRun]
        rw [timedWave_eq _ f _ hbe, ih]
        simp
    rw [hrun (chunksOf c urls) schedule hs, chunksOf_flatten c hc urls]
  exact ⟨main, by rw [main, scrapePagesModel_eq f c hc urls]⟩

theorem claim_C10_witness :
    timedScrapePages 2 ["u1", "u2"] [[(1, [exDoc]), (0, [exDoc])]] =
      ((["u1", "u2"] : List String).map (perUrlDocs exOutcome)).flatten ∧
    timedScrapePages 2 ["u1", "u2"] [[(1, [exDoc]), (0, [exDoc])]] =
      scrapePagesModel exOutcome 2 ["u1", "u2"] := by
  have hvs : ValidSchedule exOutcome 2 ["u1", "u2"] [[(1, [exDoc]), (0, [exDoc])]] := by
    unfold ValidSchedule
    have hch : chunksOf 2 ["u1", "u2"] = [["u1", "u2"]] := by decide
    rw [hch]
    refine List.Forall₂.cons ?_ List.Forall₂.nil
    have henum : ((["u1", "u2"] : List String).map (perUrlDocs exOutcome)).enum =
        [(0, [exDoc]), (1, [exDoc])] := by decide
    rw [henum]
    decide
  exact claim_C10_deterministic_order exOutcome 2 ["u1", "u2"]
    [[(1, [exDoc]), (0, [exDoc])]] (by decide) hvs

/-! ## Claim C2 -/

/-- Claim C2 (amended): exclusion-matched elements are removed before the
global-level extraction and the heading/text walk, so they contribute neither
heading values nor text content — extraction on a page and on the same page
with the excluded elements already removed differ at most in the page-level
metadata fields (product, breadcrumb, tags), which are extracted *before*
the removal. -/
theorem claim_C2_exclusion_before_walk (config : Config) (selectors : Selectors)
    (url : String) (pageRank : ℕ) (page : List Elem) :
    (scrapePageDocs config selectors url pageRank page).map stripMeta =
    (scrapePageDocs config selectors url pageRank (filterExcluded config page)).map stripMeta := by
  simp only [scrapePageDocs]
  rw [filterExcluded_idem]
  exact scrapeCore_stripMeta selectors url (takeUntilHash url)
    (pageMeta config selectors page).1
    (pageMeta config selectors page).2.1
    (pageMeta config selectors (filterExcluded config page)).1
    (pageMeta config selectors (filterExcluded config page)).2.1
    (pageMeta config selectors page).2.2
    (pageMeta config selectors (filterExcluded config page)).2.2
    pageRank (filterExcluded config page)

/-- The selector set used in the exclusion counterexample. -/
def selC2 : Selectors :=
  { lvl0 := .str "", lvl1 := .str "h1", lvl2 := .str "", lvl3 := .str ""
    lvl4 := .str "", lvl5 := .str "", lvl6 := .str "", text := .str "p"
    tags := some (.str ".tag") }

/-- A configuration excluding `.ads` elements. -/
def cfgC2 : Config := { selectors_exclude := some [".ads"] }

/-- The counterexample page: a tag element that is also matched by the
exclusion selector, a heading, and a text block. -/
def pageC2 : List Elem :=
  [{ sels := [".tag", ".ads"], text := "sponsored" },
   { sels := ["h1"], text := "Title", id := "t" },
   { sels := ["p"], text := "Hello world, plenty of text." }]

/-- Claim C2 is refuted as stated: the element matched by the exclusion
selector `.ads` still contributes its text `"sponsored"` to the emitted
document's tags, because tag extraction runs before the removal; removing the
element from the page beforehand yields empty tags. -/
theorem claim_C2_counterexample :
    (scrapePageDocs cfgC2 selC2 "https://x/p" 1 pageC2).map (fun d => d.tags) =
      [["sponsored"]] ∧
    (scrapePageDocs cfgC2 selC2 "https://x/p" 1 (filterExcluded cfgC2 pageC2)).map
      (fun d => d.tags) = [[]] := by
  refine ⟨by decide, by decide⟩

/-! ## Claim C1 -/

theorem afterSettings_other (s0 : EngineState) (indexName : String)
    (settings : MeilisearchSettings) (n : String) (h : n ≠ tempName indexName) :
    afterSettings s0 indexName settings n = s0 n := by
  unfold afterSettings
  rw [updateSettingsOp_other _ _ _ _ h, createIdxOp_other _ _ _ h,
    deleteIdxOp_other _ _ _ h]

/-- Claim C1: for every run and every failure raised at any step strictly
before the index swap, the live index's document set is unchanged — every
engine state the coordinator passes through before the swap agrees with the
initial state on the live index — and immediately after the swap the live
index holds exactly the uploaded corpus (the shadow's contents). -/
theorem claim_C1_live_untouched (s0 : EngineState) (indexName : String)
    (documents : List SearchDocument) (settings : MeilisearchSettings)
    (hlive : (s0 indexName).isSome = true) :
    (∀ st ∈ reindexPreSwapStates s0 indexName documents settings,
      docsAt st indexName = docsAt s0 indexName) ∧
    docsAt (reindexSwappedState s0 indexName documents settings) indexName =
      some documents := by
  have hne : indexName ≠ tempName indexName := fun h => tempName_ne indexName h.symm
  have hs1 : deleteIdxOp s0 (tempName indexName) indexName = s0 indexName :=
    deleteIdxOp_other _ _ _ hne
  have hs2 : createIdxOp (deleteIdxOp s0 (tempName indexName)) (tempName indexName) indexName
      = s0 indexName := by
    rw [createIdxOp_other _ _ _ hne, hs1]
  have hs3 : updateSettingsOp (createIdxOp (deleteIdxOp s0 (tempName indexName))
      (tempName indexName)) (tempName indexName) settings indexName = s0 indexName := by
    rw [updateSettingsOp_other _ _ _ _ hne, hs2]
  have hsettings : afterSettings s0 indexName settings indexName = s0 indexName :=
    afterSettings_other s0 indexName settings indexName hne
  have hs4 : afterUploads (afterSettings s0 indexName settings) (tempName indexName)
      (chunksOf BATCH_SIZE documents) indexName = s0 indexName := by
    rw [afterUploads_other (tempName indexName) indexName hne, hsettings]
  have hs4pre : afterUploads (updateSettingsOp (createIdxOp (deleteIdxOp s0 (tempName indexName))
      (tempName indexName)) (tempName indexName) settings) (tempName indexName)
      (chunksOf BATCH_SIZE documents) indexName = s0 indexName := by
    rw [afterUploads_other (tempName indexName) indexName hne, hs3]
  have hensure : afterEnsureLive (afterUploads (updateSettingsOp (createIdxOp
      (deleteIdxOp s0 (tempName indexName)) (tempName indexName)) (tempName indexName) settings)
      (tempName indexName) (chunksOf BATCH_SIZE documents)) indexName indexName
      = s0 indexName := by
    unfold afterEnsureLive
    rw [if_pos (by rw [hs4pre]; exact hlive)]
    exact hs4pre
  constructor
  · intro st hst
    simp only [reindexPreSwapStates, List.mem_cons, List.mem_append,
      List.mem_singleton] at hst
    have hgoal : st indexName = s0 indexName := by
      rcases hst with (h | h | h | h) | h | h
      · rw [h]; exact hs1
      · rw [h]; exact hs2
      · rw [h]; exact hs3
      · rw [uploadStates_other (tempName indexName) indexName hne _ _ st h]
        exact hs3
      · rw [h]; exact hensure
      · exact absurd h (List.not_mem_nil st)
    unfold docsAt
    rw [hgoal]
  · unfold reindexSwappedState
    have hswap : swapOp (afterEnsureLive (afterUploads (afterSettings s0 indexName settings)
        (tempName indexName) (chunksOf BATCH_SIZE documents)) indexName) indexName
        (tempName indexName) indexName =
        afterEnsureLive (afterUploads (afterSettings s0 indexName settings)
          (tempName indexName) (chunksOf BATCH_SIZE documents)) indexName
          (tempName indexName) := by
      simp [swapOp]
    unfold docsAt
    rw [hswap]
    have hensure_temp : afterEnsureLive (afterUploads (afterSettings s0 indexName settings)
        (tempName indexName) (chunksOf BATCH_SIZE documents)) indexName (tempName indexName) =
        afterUploads (afterSettings s0 indexName settings) (tempName indexName)
          (chunksOf BATCH_SIZE documents) (tempName indexName) := by
      unfold afterEnsureLive
      rw [if_pos (by rw [hs4]; exact hlive)]
    rw [hensure_temp]
    have htempidx : afterSettings s0 indexName settings (tempName indexName) =
        some { docs := [], settings := mergeSettings ({} : EngIndex).settings settings } := by
      unfold afterSettings
      simp [updateSettingsOp, createIdxOp]
    rw [afterUploads_docs (tempName indexName) (chunksOf BATCH_SIZE documents) _ _ htempidx]
    rw [chunksOf_flatten BATCH_SIZE (by norm_num [BATCH_SIZE]) documents]
    simp

/-- A concrete engine with one live index holding one stale document. -/
def engC1 : EngineState :=
  fun n => if n = "docs" then some { docs := [exDoc] } else none

theorem claim_C1_witness :
    (∀ st ∈ reindexPreSwapStates engC1 "docs" [exDoc, exDoc] {},
      docsAt st "docs" = docsAt engC1 "docs") ∧
    docsAt (reindexSwappedState engC1 "docs" [exDoc, exDoc] {}) "docs" =
      some [exDoc, exDoc] :=
  claim_C1_live_untouched engC1 "docs" [exDoc, exDoc] {} (by decide)

/-! ## Claim C8 -/

theorem getElem_singleton_same {α : Type} (x : α) (k1 k2 : ℕ) (d1 d2 : α)
    (h1 : [x][k1]? = some d1) (h2 : [x][k2]? = some d2) : k1 = k2 := by
  have e1 : k1 = 0 := by cases k1 with | zero => rfl | succ k => simp at h1
  have e2 : k2 = 0 := by cases k2 with | zero => rfl | succ k => simp at h2
  rw [e1, e2]

/-- Claim C8 (amended): each emitted document's `objectID` is the
deterministic hash of `url` (+ `#anchor` when an anchor is active) with the
per-page emission-order suffix appended, so object ids are pairwise distinct
within one page's output.  (The suffix is per-page, not index-wide, so no
corpus-wide uniqueness follows.) -/
theorem claim_C8_page_local_unique (config : Config) (selectors : Selectors)
    (url : String) (pageRank : ℕ) (page : List Elem) (k1 k2 : ℕ)
    (d1 d2 : SearchDocument)
    (h1 : (scrapePageDocs config selectors url pageRank page)[k1]? = some d1)
    (h2 : (scrapePageDocs config selectors url pageRank page)[k2]? = some d2)
    (hne : k1 ≠ k2) :
    d1.objectID ≠ d2.objectID := by
  simp only [scrapePageDocs, scrapeCore] at h1 h2
  by_cases hempty : (queryAllM (filterExcluded config page)
      (getSelectorString selectors.text)).isEmpty = true
  · simp only [hempty, if_true] at h1 h2
    split_ifs at h1 h2 <;>
    first
    | exact absurd (getElem_singleton_same _ _ _ _ _ h1 h2) hne
    | simp at h1
  · rw [if_neg hempty] at h1 h2
    obtain ⟨a1, ha1⟩ := walk_objectID _ _ _ _ _ _ _ _ h1
    obtain ⟨a2, ha2⟩ := walk_objectID _ _ _ _ _ _ _ _ h2
    rw [ha1, ha2]
    exact objectId_suffix_ne _ a1 a2 _ _ (by omega)

/-- The selector set used for the object-id examples. -/
def selC8 : Selectors :=
  { lvl0 := .str "", lvl1 := .str "h1", lvl2 := .str "", lvl3 := .str ""
    lvl4 := .str "", lvl5 := .str "", lvl6 := .str "", text := .str "p" }

/-- A page with two text blocks under one heading. -/
def pageC8w : List Elem :=
  [{ sels := ["h1"], text := "Title", id := "t" },
   { sels := ["p"], text := "First paragraph of text." },
   { sels := ["p"], text := "Second paragraph of text." }]

set_option maxRecDepth 40000 in
theorem claim_C8_witness :
    (((scrapePageDocs {} selC8 "https://x/a" 1 pageC8w)[0]?).getD exDoc).objectID ≠
    (((scrapePageDocs {} selC8 "https://x/a" 1 pageC8w)[1]?).getD exDoc).objectID :=
  claim_C8_page_local_unique {} selC8 "https://x/a" 1 pageC8w 0 1 _ _
    (by decide) (by decide) (by decide)

/-- A one-paragraph page. -/
def pageC8 : List Elem :=
  [{ sels := ["p"], text := "Hello world, plenty of text." }]

/-- Claim C8 is refuted as stated for the corpus-wide part: there is no
index-wide suffix — the suffix restarts at 0 on every page — and the 32-bit
hash collides across URLs (`"Aa"` and `"BB"` hash identically), so two pages
produce the same `objectID` in one corpus. -/
theorem claim_C8_counterexample :
    ("Aa" : String) ≠ "BB" ∧
    (scrapePageDocs {} selC8 "Aa" 1 pageC8).map (fun d => d.objectID) = ["1mo-0"] ∧
    (scrapePageDocs {} selC8 "BB" 1 pageC8).map (fun d => d.objectID) = ["1mo-0"] := by
  refine ⟨by decide, by decide, by decide⟩

/-! ## Claim C3 -/

/-- Claim C3 (amended): every content document's `item_priority` decomposes
exactly as `rank * 10^9 + levelWeight * 1000 + positionDescending` with
`levelWeight = computeLevelWeight` of the document's hierarchy snapshot and
`positionDescending` positive and bounded by the page's candidate element
count; the composite orders two content documents by start-URL rank first
(provided the lower-rank document's `levelWeight * 1000 + positionDescending`
stays below 10^9), then by shallower deepest non-empty level (provided the
position components differ by less than 10000), then by earlier position on
the page; and `computeLevelWeight` is strictly larger for a shallower deepest
non-empty level. -/
theorem claim_C3_priority_order
    (config1 : Config) (sel1 : Selectors) (url1 : String) (r1 : ℕ) (page1 : List Elem)
    (config2 : Config) (sel2 : Selectors) (url2 : String) (r2 : ℕ) (page2 : List Elem)
    (d1 d2 : SearchDocument)
    (hd1 : d1 ∈ scrapePageDocs config1 sel1 url1 r1 page1)
    (hd2 : d2 ∈ scrapePageDocs config2 sel2 url2 r2 page2)
    (ht1 : d1.type = DocumentType.content) (ht2 : d2.type = DocumentType.content) :
    (d1.item_priority = r1 * 1000000000 +
        computeLevelWeight (docHierarchy d1) * 1000 + docPosPart d1 r1 ∧
      0 < docPosPart d1 r1 ∧
      docPosPart d1 r1 ≤ (candidateElems sel1 (filterExcluded config1 page1)).length) ∧
    (r2 < r1 →
      computeLevelWeight (docHierarchy d2) * 1000 + docPosPart d2 r2 < 1000000000 →
      d2.item_priority < d1.item_priority) ∧
    (r1 = r2 →
      computeLevelWeight (docHierarchy d2) < computeLevelWeight (docHierarchy d1) →
      docPosPart d2 r2 < docPosPart d1 r1 + 10000 →
      d2.item_priority < d1.item_priority) ∧
    (r1 = r2 →
      computeLevelWeight (docHierarchy d1) = computeLevelWeight (docHierarchy d2) →
      docPosPart d2 r2 < docPosPart d1 r1 →
      d2.item_priority < d1.item_priority) ∧
    (∀ g1 g2 : Hierarchy, ∀ i j : ℕ, deepestNonEmpty g1 = some i →
      deepestNonEmpty g2 = some j → i < j →
      computeLevelWeight g2 < computeLevelWeight g1) := by
  simp only [scrapePageDocs] at hd1 hd2
  have inv1 := scrapeCore_content_priority sel1 url1 _ _ _ _ r1 _ d1 hd1 ht1
  have inv2 := scrapeCore_content_priority sel2 url2 _ _ _ _ r2 _ d2 hd2 ht2
  obtain ⟨e1, p1pos, p1le⟩ := inv1
  obtain ⟨e2, p2pos, p2le⟩ := inv2
  refine ⟨⟨e1, p1pos, p1le⟩, ?_, ?_, ?_, ?_⟩
  · intro hrank hbound
    rw [e1, e2]
    omega
  · intro hrank hw hp
    rw [e1, e2]
    have c1 := computeLevelWeight_cases (docHierarchy d1)
    have c2 := computeLevelWeight_cases (docHierarchy d2)
    rcases c1 with h | h | h | h | h | h | h | h <;>
      rcases c2 with g | g | g | g | g | g | g | g <;>
      omega
  · intro hrank hw hp
    rw [e1, e2]
    omega
  · intro g1 g2 i j hi hj hij
    have w1 := deepest_weight g1 i hi
    have w2 := deepest_weight g2 j hj
    omega

/-- The page for the priority witness: one heading and two paragraphs. -/
def pageC3w : List Elem :=
  [{ sels := ["h1"], text := "Title", id := "t" },
   { sels := ["p"], text := "First paragraph of text." },
   { sels := ["p"], text := "Second paragraph of text." }]

set_option maxRecDepth 40000 in
theorem claim_C3_witness :
    ((((scrapePageDocs {} selC8 "https://x/b" 1 pageC3w)[0]?).getD exDoc).item_priority =
        1 * 1000000000 +
        computeLevelWeight (docHierarchy (((scrapePageDocs {} selC8 "https://x/b" 1
          pageC3w)[0]?).getD exDoc)) * 1000 +
        docPosPart (((scrapePageDocs {} selC8 "https://x/b" 1 pageC3w)[0]?).getD exDoc) 1 ∧
      0 < docPosPart (((scrapePageDocs {} selC8 "https://x/b" 1 pageC3w)[0]?).getD exDoc) 1 ∧
      docPosPart (((scrapePageDocs {} selC8 "https://x/b" 1 pageC3w)[0]?).getD exDoc) 1 ≤
        (candidateElems selC8 (filterExcluded {} pageC3w)).length) ∧
    (1 < 1 →
      computeLevelWeight (docHierarchy (((scrapePageDocs {} selC8 "https://x/b" 1
        pageC3w)[1]?).getD exDoc)) * 1000 +
        docPosPart (((scrapePageDocs {} selC8 "https://x/b" 1 pageC3w)[1]?).getD exDoc) 1 <
        1000000000 →
      (((scrapePageDocs {} selC8 "https://x/b" 1 pageC3w)[1]?).getD exDoc).item_priority <
        (((scrapePageDocs {} selC8 "https://x/b" 1 pageC3w)[0]?).getD exDoc).item_priority) ∧
    ((1 : ℕ) = 1 →
      computeLevelWeight (docHierarchy (((scrapePageDocs {} selC8 "https://x/b" 1
        pageC3w)[1]?).getD exDoc)) <
        computeLevelWeight (docHierarchy (((scrapePageDocs {} selC8 "https://x/b" 1
          pageC3w)[0]?).getD exDoc)) →
      docPosPart (((scrapePageDocs {} selC8 "https://x/b" 1 pageC3w)[1]?).getD exDoc) 1 <
        docPosPart (((scrapePageDocs {} selC8 "https://x/b" 1 pageC3w)[0]?).getD exDoc) 1 +
          10000 →
      (((scrapePageDocs {} selC8 "https://x/b" 1 pageC3w)[1]?).getD exDoc).item_priority <
        (((scrapePageDocs {} selC8 "https://x/b" 1 pageC3w)[0]?).getD exDoc).item_priority) ∧
    ((1 : ℕ) = 1 →
      computeLevelWeight (docHierarchy (((scrapePageDocs {} selC8 "https://x/b" 1
        pageC3w)[0]?).getD exDoc)) =
        computeLevelWeight (docHierarchy (((scrapePageDocs {} selC8 "https://x/b" 1
          pageC3w)[1]?).getD exDoc)) →
      docPosPart (((scrapePageDocs {} selC8 "https://x/b" 1 pageC3w)[1]?).getD exDoc) 1 <
        docPosPart (((scrapePageDocs {} selC8 "https://x/b" 1 pageC3w)[0]?).getD exDoc) 1 →
      (((scrapePageDocs {} selC8 "https://x/b" 1 pageC3w)[1]?).getD exDoc).item_priority <
        (((scrapePageDocs {} selC8 "https://x/b" 1 pageC3w)[0]?).getD exDoc).item_priority) ∧
    (∀ g1 g2 : Hierarchy, ∀ i j : ℕ, deepestNonEmpty g1 = some i →
      deepestNonEmpty g2 = some j → i < j →
      computeLevelWeight g2 < computeLevelWeight g1) :=
  claim_C3_priority_order {} selC8 "https://x/b" 1 pageC3w {} selC8 "https://x/b" 1 pageC3w
    _ _ (by decide) (by decide) (by decide) (by decide)

/-- The page for the priority counterexample: a heading with no matching
text element, so the extractor emits the page-summary `lvl1` document. -/
def pageC3 : List Elem := [{ sels := ["h1"], text := "Page Title" }]

/-- Claim C3 is refuted as stated: the page-summary document's deepest
non-empty hierarchy level at emission is 1, whose claimed level weight is 80
(`computeLevelWeight` agrees), and its position component can be at most the
page's candidate count 1 — yet the emitted `item_priority` is
`1 * 10^9 + 90 * 1000`, which matches no value the claimed formula allows. -/
theorem claim_C3_counterexample :
    (scrapePageDocs {} selC8 "https://x/t" 1 pageC3).map (fun d => d.item_priority) =
      [1000090000] ∧
    (scrapePageDocs {} selC8 "https://x/t" 1 pageC3).map
      (fun d => computeLevelWeight (docHierarchy d)) = [80] ∧
    (scrapePageDocs {} selC8 "https://x/t" 1 pageC3).map
      (fun d => deepestNonEmpty (docHierarchy d)) = [some 1] ∧
    (candidateElems selC8 (filterExcluded {} pageC3)).length = 1 ∧
    (1000090000 : ℕ) ≠ 1 * 1000000000 + 80 * 1000 + 0 ∧
    (1000090000 : ℕ) ≠ 1 * 1000000000 + 80 * 1000 + 1 := by
  refine ⟨by decide, by decide, by decide, by decide, by decide, by decide⟩
